import Mathlib

/-!
Shallow embedding of the GHZ-asymmetry control-campaign programs
(`quantum_campaign_control.py`, the triple-ancilla variant, and
`quantum_campaign_b3.py`, the dual-ancilla variant).

Bitstrings are lists of Booleans in the order the characters appear in the
measured string (left to right); the analyzers reverse them, as the Python
code does, so that position `i` of the reversed list is the measurement of
qubit `i`.  Counts are exact naturals, stabilities exact rationals, entropy
an exact real.  The external collaborators (backend, transpiler, sampler,
ledger file) are out of scope for the analysis core and are modelled as
oracle functions where the orchestration claims need them.
-/

namespace GhzCampaign

/-- A topology configuration: the `TOPOLOGIES` entries of both scripts. -/
structure Config where
  ghz_indices : List ℕ
  local_a_indices : List ℕ
  local_b_indices : List ℕ
deriving DecidableEq, Repr

/-- Topology "A" (baseline) from the `TOPOLOGIES` registry. -/
def topologyA : Config := ⟨[0, 1, 2, 3, 4, 5], [0, 1, 2], [3, 4, 5]⟩

/-- Topology "B" (rotation +1) from the `TOPOLOGIES` registry. -/
def topologyB : Config := ⟨[1, 2, 3, 4, 5, 0], [1, 2, 3], [4, 5, 0]⟩

/-- Topology "C" (rotation +2) from the `TOPOLOGIES` registry. -/
def topologyC : Config := ⟨[2, 3, 4, 5, 0, 1], [2, 3, 4], [5, 0, 1]⟩

/-- Topology "D" (interleaved) from the `TOPOLOGIES` registry. -/
def topologyD : Config := ⟨[0, 1, 2, 3, 4, 5], [0, 2, 4], [1, 3, 5]⟩

/-- The registry in its fixed iteration order, as both scripts declare it. -/
def TOPOLOGIES : List (String × Config) :=
  [("A", topologyA), ("B", topologyB), ("C", topologyC), ("D", topologyD)]

/-- `SHOTS = 8192` in both scripts. -/
def SHOTS : ℕ := 8192

/-- `REPETITIONS = 5` in both scripts. -/
def REPETITIONS : ℕ := 5

/-- An outcome-count distribution: measured bitstring (characters left to
right, `true` = '1') paired with its occurrence count. -/
abbrev Counts := List (List Bool × ℕ)

/-- `total = sum(counts.values())`. -/
def totalCounts (counts : Counts) : ℕ := (counts.map (fun sc => sc.2)).sum

/-- `[bits[i] for i in nodes].count("1") % 2`: parity of the selected
positions of an (already reversed) bitstring; out-of-range reads as '0'. -/
def parityOf (bits : List Bool) (group : List ℕ) : ℕ :=
  (group.countP (fun i => bits.getD i false)) % 2

/-- `int(bits[a])`: the ancilla bit of an (already reversed) bitstring
read as the integer 0 or 1. -/
def ancillaBit (bits : List Bool) (a : ℕ) : ℕ :=
  if bits.getD a false then 1 else 0

/-- The per-outcome parity-check decision of `analyze_results`:
`measured_ancilla == computed_parity`, on an already reversed bitstring. -/
def groupMatches (bits : List Bool) (group : List ℕ) (anc : ℕ) : Bool :=
  decide (ancillaBit bits anc = parityOf bits group)

/-- The `ok` accumulator of `analyze_results`: the counts of all outcomes
whose (reversed) bitstring passes the parity check of the given group.  Each
raw outcome string is reversed here, as `bits_rev = bits[::-1]` does. -/
def okCount (counts : Counts) (group : List ℕ) (anc : ℕ) : ℕ :=
  (counts.map (fun sc => if groupMatches sc.1.reverse group anc then sc.2 else 0)).sum

/-- The five-field return value of the control script's `analyze_results`:
global, local-A, local-B stability, asymmetry index, Shannon entropy. -/
structure Metrics where
  G : ℚ
  LA : ℚ
  LB : ℚ
  AI : ℚ
  H : ℝ

/-- `entropy = -sum(pr * np.log2(pr) for pr in probs if pr > 0)` where
`probs` collects `c / total` for outcomes with positive probability; for a
positive total, `p > 0` holds exactly when `c ≠ 0`. -/
noncomputable def entropyOf (counts : Counts) : ℝ :=
  -((counts.map (fun sc =>
      if sc.2 = 0 then 0
      else ((sc.2 : ℝ) / (totalCounts counts : ℝ)) *
        Real.logb 2 ((sc.2 : ℝ) / (totalCounts counts : ℝ)))).sum)

/-- `analyze_results(counts, config)` of `quantum_campaign_control.py`:
ancilla indices are fixed at 6 (global), 7 (local-A), 8 (local-B); a zero
total short-circuits to all-zero metrics. -/
noncomputable def analyze_results (counts : Counts) (config : Config) : Metrics :=
  if totalCounts counts = 0 then ⟨0, 0, 0, 0, 0⟩
  else
    let total : ℚ := (totalCounts counts : ℚ)
    let G := (okCount counts config.ghz_indices 6 : ℚ) / total
    let LA := (okCount counts config.local_a_indices 7 : ℚ) / total
    let LB := (okCount counts config.local_b_indices 8 : ℚ) / total
    ⟨G, LA, LB, |LA - LB|, entropyOf counts⟩

/-- `analyze_results(counts, data_qubits, anc_global, anc_local)` of
`quantum_campaign_b3.py`.  The Python function returns a 3-tuple of zeros
on a zero total but a 2-tuple `(G, LA)` otherwise; the returned list keeps
that arity difference faithfully.  The local group is `data_qubits[:3]`. -/
def b3_analyze_results (counts : Counts) (data_qubits : List ℕ)
    (anc_global anc_local : ℕ) : List ℚ :=
  if totalCounts counts = 0 then [0, 0, 0]
  else
    let total : ℚ := (totalCounts counts : ℚ)
    [(okCount counts data_qubits anc_global : ℚ) / total,
     (okCount counts (data_qubits.take 3) anc_local : ℚ) / total]

/-- Abstract gate/measurement operations of the built circuit program. -/
inductive Op where
  | h (q : ℕ)
  | cx (control target : ℕ)
  | measure (q c : ℕ)
deriving DecidableEq, Repr

/-- `build_circuit(config)` of the control script: H on every data qubit,
then CNOTs of the global group into ancilla 6, local-A into 7, local-B into
8, then `measure(range(9), range(9))`. -/
def build_circuit (config : Config) : List Op :=
  (config.ghz_indices.map Op.h) ++
  (config.ghz_indices.map (fun q => Op.cx q 6)) ++
  (config.local_a_indices.map (fun q => Op.cx q 7)) ++
  (config.local_b_indices.map (fun q => Op.cx q 8)) ++
  ((List.range 9).map (fun i => Op.measure i i))

/-- `classical_control_circuit(topology_map)` of the dual-ancilla script:
H on every data qubit, CNOTs of all data qubits into the global ancilla,
then of `data_qubits[:3]` into the local ancilla, then `measure(i, i)` for
`i` in `range(8)`. -/
def classical_control_circuit (data_qubits : List ℕ)
    (anc_global anc_local : ℕ) : List Op :=
  (data_qubits.map Op.h) ++
  (data_qubits.map (fun q => Op.cx q anc_global)) ++
  ((data_qubits.take 3).map (fun q => Op.cx q anc_local)) ++
  ((List.range 8).map (fun i => Op.measure i i))

/-- `get_ordered_data(config)`: local-A first, then the remaining global
indices in order, so that `data_qubits[:3]` is the local-A group. -/
def get_ordered_data (config : Config) : List ℕ :=
  config.local_a_indices ++
    config.ghz_indices.filter (fun x => decide (x ∉ config.local_a_indices))

/-- A job record kept by the orchestrator for a successful submission. -/
structure JobRec where
  run_label : String
  rep : ℕ
  job_id : String
deriving DecidableEq, Repr

/-- Outcome of the per-pair work of the submission phase, as an oracle for
the external collaborators.  `transpileFail` models an exception in the
`transpile` call, which both scripts place before (outside) the
`try` block; `submitFail` models an exception inside the `try` block
(`sampler.run` or `job.job_id()`), which is caught. -/
inductive SubmitStep where
  | transpileFail
  | submitFail
  | submitted (job_id : String)
deriving DecidableEq, Repr

/-- The submission-phase loop over (label, repetition) pairs.  Returns the
pairs actually attempted, the job records accumulated, and whether the
phase was aborted by an uncaught exception.  A `submitFail` is caught and
the loop continues with no record; a `transpileFail` propagates and ends
the phase at that pair. -/
def submission_phase (step : String → ℕ → SubmitStep) :
    List (String × ℕ) → List (String × ℕ) × List JobRec × Bool
  | [] => ([], [], false)
  | p :: rest =>
    match step p.1 p.2 with
    | SubmitStep.transpileFail => ([p], [], true)
    | SubmitStep.submitFail =>
      let r := submission_phase step rest
      (p :: r.1, r.2.1, r.2.2)
    | SubmitStep.submitted jid =>
      let r := submission_phase step rest
      (p :: r.1, ⟨p.1, p.2, jid⟩ :: r.2.1, r.2.2)

/-- The (label, repetition) pairs the orchestrator iterates: each label of
the registry with repetitions 1..N, labels in registry order. -/
def campaign_pairs (labels : List String) (reps : ℕ) : List (String × ℕ) :=
  labels.flatMap (fun lbl => (List.range' 1 reps).map (fun i => (lbl, i)))

/-- Outcome of the per-job work of the collection phase, as an oracle for
the external collaborators: `waitFail` models an exception in the blocking
`job.result()` (caught by the outer handler), `extractFail` one in count
extraction (caught by the inner handler, `continue`), and `gotCounts c`
a successful extraction of the distribution `c`. -/
inductive CollectStep where
  | waitFail
  | extractFail
  | gotCounts (c : Counts)

/-- The collection-phase loop: visits the job records in submission order;
any failure (wait, extraction, or a row builder signalling an analysis
failure with `none`) skips the job with no row; a built row is appended.
Returns the visited jobs and the appended ledger rows, both in order. -/
def collection_phase (step : JobRec → CollectStep)
    (mkRow : JobRec → Counts → Option (List String)) :
    List JobRec → List JobRec × List (List String)
  | [] => ([], [])
  | j :: rest =>
    let r := collection_phase step mkRow rest
    match step j with
    | CollectStep.waitFail => (j :: r.1, r.2)
    | CollectStep.extractFail => (j :: r.1, r.2)
    | CollectStep.gotCounts c =>
      match mkRow j c with
      | none => (j :: r.1, r.2)
      | some row => (j :: r.1, row :: r.2)

/-- `G, LA = analyze_results(...)` in the dual-ancilla `main`: unpacking a
returned tuple into two names succeeds only for a 2-element tuple; any
other arity raises (modelled as `none`). -/
def unpack2 (l : List ℚ) : Option (ℚ × ℚ) :=
  match l with
  | [a, b] => some (a, b)
  | _ => none

/-- The ledger row built in the dual-ancilla collection loop: backend name,
label, job id, formatted `G*100` and `LA*100` (the percent formatting of
the host language is abstracted as `fmt`), then the literal strings "0.00"
for the local-B and asymmetry columns, then the shot count. -/
def b3_mkRow (backendName : String) (fmt : ℚ → String) (data_qubits : List ℕ)
    (anc_global anc_local shots : ℕ) (j : JobRec) (c : Counts) :
    Option (List String) :=
  (unpack2 (b3_analyze_results c data_qubits anc_global anc_local)).map
    (fun gla =>
      [backendName, j.run_label, j.job_id, fmt (gla.1 * 100), fmt (gla.2 * 100),
       "0.00", "0.00", toString shots])

/-- The concrete two-outcome distribution of the spec's Scenario 2:
`"000000000"` with count 4096 and `"111111000"` with count 4096. -/
def scenario2Counts : Counts :=
  [(List.replicate 9 false, 4096),
   ([true, true, true, true, true, true, false, false, false], 4096)]

/-- A concrete submission oracle whose transpile step fails on the first
pair of label "A" and succeeds elsewhere. -/
def stepTranspileFailA1 : String → ℕ → SubmitStep := fun lbl i =>
  if lbl = "A" ∧ i = 1 then SubmitStep.transpileFail
  else SubmitStep.submitted "jid"

end GhzCampaign

namespace GhzCampaign

/-! ## Helper lemmas -/

theorem getD_reverse (s : List Bool) (i : ℕ) (h : i < s.length) :
    s.reverse.getD i false = s.getD (s.length - 1 - i) false := by
  have h1 : i < s.reverse.length := by simpa using h
  have h2 : s.length - 1 - i < s.length := by omega
  rw [List.getD_eq_getElem?_getD, List.getD_eq_getElem?_getD,
    List.getElem?_eq_getElem h1, List.getElem?_eq_getElem h2]
  simp

theorem parityOf_reverse (s : List Bool) (group : List ℕ)
    (hg : ∀ i ∈ group, i < s.length) :
    parityOf s.reverse group = parityOf s (group.map (fun i => s.length - 1 - i)) := by
  unfold parityOf
  rw [List.countP_map]
  congr 1
  refine List.countP_congr (fun i hi => ?_)
  rw [getD_reverse s i (hg i hi)]
  exact Iff.rfl

theorem okCount_le_total (counts : Counts) (group : List ℕ) (anc : ℕ) :
    okCount counts group anc ≤ totalCounts counts := by
  induction counts with
  | nil => simp [okCount, totalCounts]
  | cons sc rest ih =>
    simp only [okCount, totalCounts, List.map_cons, List.sum_cons] at *
    have hle : (if groupMatches sc.1.reverse group anc then sc.2 else 0) ≤ sc.2 := by
      split <;> omega
    omega

theorem analyze_results_of_ne (counts : Counts) (config : Config)
    (h : totalCounts counts ≠ 0) :
    analyze_results counts config =
      ⟨(okCount counts config.ghz_indices 6 : ℚ) / (totalCounts counts : ℚ),
       (okCount counts config.local_a_indices 7 : ℚ) / (totalCounts counts : ℚ),
       (okCount counts config.local_b_indices 8 : ℚ) / (totalCounts counts : ℚ),
       |(okCount counts config.local_a_indices 7 : ℚ) / (totalCounts counts : ℚ) -
         (okCount counts config.local_b_indices 8 : ℚ) / (totalCounts counts : ℚ)|,
       entropyOf counts⟩ := by
  rw [analyze_results, if_neg h]

theorem scenario2_entropy : entropyOf scenario2Counts = 1 := by
  have htot : totalCounts scenario2Counts = 8192 := by decide
  rw [entropyOf, htot]
  simp only [scenario2Counts, List.map_cons, List.map_nil, List.sum_cons, List.sum_nil]
  norm_num
  have h12 : ((1 : ℝ) / 2) = 2⁻¹ := by norm_num
  rw [h12, Real.logb_inv, Real.logb_self_eq_one (by norm_num)]
  norm_num

theorem scenario2_analysis :
    (analyze_results scenario2Counts topologyA).G = 1 ∧
    (analyze_results scenario2Counts topologyA).LA = 1 / 2 ∧
    (analyze_results scenario2Counts topologyA).LB = 1 ∧
    (analyze_results scenario2Counts topologyA).H = 1 := by
  have htot : totalCounts scenario2Counts = 8192 := by decide
  have h6 : okCount scenario2Counts topologyA.ghz_indices 6 = 8192 := by decide
  have h7 : okCount scenario2Counts topologyA.local_a_indices 7 = 4096 := by decide
  have h8 : okCount scenario2Counts topologyA.local_b_indices 8 = 8192 := by decide
  rw [analyze_results_of_ne _ _ (by rw [htot]; norm_num)]
  refine ⟨?_, ?_, ?_, scenario2_entropy⟩ <;>
    simp only [htot, h6, h7, h8] <;> norm_num

theorem stability_bound_of_pos (counts : Counts) (group : List ℕ) (anc : ℕ)
    (h : 0 < totalCounts counts) :
    0 ≤ (okCount counts group anc : ℚ) / (totalCounts counts : ℚ) ∧
    (okCount counts group anc : ℚ) / (totalCounts counts : ℚ) ≤ 1 := by
  have h0 : (0 : ℚ) < (totalCounts counts : ℚ) := by exact_mod_cast h
  constructor
  · positivity
  · rw [div_le_one h0]
    exact_mod_cast okCount_le_total counts group anc

/-! ## Claim theorems -/

/-- C1 (counterexample): on the input `{"000000000": 4096, "111111000": 4096}`
with topology A, the code's local-A stability is not 1.0: after the Qiskit
reversal, qubits 0..2 of `"111111000"` read 0 while the local-A ancilla
(qubit 7) reads 1, so half the shots fail the local-A parity check. -/
theorem scenario2_localA_not_one :
    (analyze_results scenario2Counts topologyA).LA ≠ 1 := by
  rw [scenario2_analysis.2.1]
  norm_num

/-- C1 (amended): the triple-ancilla analyzer on topology A with input
`{"000000000": 4096, "111111000": 4096}` yields global stability 1.0,
local-A stability 0.5, local-B stability 1.0, and entropy 1.0 bit. -/
theorem scenario2_metrics :
    (analyze_results scenario2Counts topologyA).G = 1 ∧
    (analyze_results scenario2Counts topologyA).LA = 1 / 2 ∧
    (analyze_results scenario2Counts topologyA).LB = 1 ∧
    (analyze_results scenario2Counts topologyA).H = 1 :=
  scenario2_analysis

/-- C2: for any distribution with positive total, the triple-ancilla
analyzer's asymmetry field is exactly the absolute difference of the
local-A and local-B stability fields; in the dual-ancilla variant, where no
local-B group exists, every ledger row records the asymmetry as the zero
value "0.00". -/
theorem asymmetry_is_stability_difference (counts : Counts) (config : Config)
    (h : 0 < totalCounts counts) :
    (analyze_results counts config).AI =
      |(analyze_results counts config).LA - (analyze_results counts config).LB| ∧
    (∀ backendName fmt data_qubits anc_global anc_local shots j c row,
      b3_mkRow backendName fmt data_qubits anc_global anc_local shots j c = some row →
        row.getD 6 "" = "0.00") := by
  constructor
  · rw [analyze_results_of_ne _ _ h.ne']
  · intro backendName fmt data_qubits anc_global anc_local shots j c row hrow
    unfold b3_mkRow at hrow
    cases hu : unpack2 (b3_analyze_results c data_qubits anc_global anc_local) with
    | none =>
      rw [hu] at hrow
      exact Option.noConfusion hrow
    | some gla =>
      rw [hu] at hrow
      have hrow2 : _ = row := Option.some.inj hrow
      rw [← hrow2]
      rfl

/-- Witness for C2 at the Scenario 2 distribution and topology A. -/
theorem asymmetry_is_stability_difference_witness :
    (analyze_results scenario2Counts topologyA).AI =
      |(analyze_results scenario2Counts topologyA).LA -
        (analyze_results scenario2Counts topologyA).LB| :=
  (asymmetry_is_stability_difference scenario2Counts topologyA (by decide)).1

/-- C3: matching counts never exceed the total, and with a positive total
every stability field of either analyzer lies in the closed interval
[0, 1]. -/
theorem stability_in_unit_interval (counts : Counts) (config : Config)
    (data_qubits : List ℕ) (anc_global anc_local anc : ℕ) (group : List ℕ)
    (h : 0 < totalCounts counts) :
    okCount counts group anc ≤ totalCounts counts ∧
    (0 ≤ (analyze_results counts config).G ∧ (analyze_results counts config).G ≤ 1) ∧
    (0 ≤ (analyze_results counts config).LA ∧ (analyze_results counts config).LA ≤ 1) ∧
    (0 ≤ (analyze_results counts config).LB ∧ (analyze_results counts config).LB ≤ 1) ∧
    (∀ x ∈ b3_analyze_results counts data_qubits anc_global anc_local,
      0 ≤ x ∧ x ≤ 1) := by
  refine ⟨okCount_le_total counts group anc, ?_, ?_, ?_, ?_⟩
  · rw [analyze_results_of_ne _ _ h.ne']
    exact stability_bound_of_pos counts config.ghz_indices 6 h
  · rw [analyze_results_of_ne _ _ h.ne']
    exact stability_bound_of_pos counts config.local_a_indices 7 h
  · rw [analyze_results_of_ne _ _ h.ne']
    exact stability_bound_of_pos counts config.local_b_indices 8 h
  · intro x hx
    rw [b3_analyze_results, if_neg h.ne'] at hx
    simp only [List.mem_cons, List.not_mem_nil, or_false] at hx
    rcases hx with hx | hx
    · rw [hx]; exact stability_bound_of_pos counts data_qubits anc_global h
    · rw [hx]; exact stability_bound_of_pos counts (data_qubits.take 3) anc_local h

/-- Witness for C3 at the Scenario 2 distribution. -/
theorem stability_in_unit_interval_witness :
    0 ≤ (analyze_results scenario2Counts topologyA).G ∧
    (analyze_results scenario2Counts topologyA).G ≤ 1 :=
  (stability_in_unit_interval scenario2Counts topologyA [0, 1, 2, 3, 4, 5]
    6 7 6 [0, 1, 2, 3, 4, 5] (by decide)).2.1

/-- C5: a distribution whose counts sum to zero (in particular the empty
distribution) makes the triple-ancilla analyzer return the all-zero metrics
record and the dual-ancilla analyzer return its all-zero tuple; both are
plain returns, no error path is taken. -/
theorem zero_total_zero_metrics (counts : Counts) (config : Config)
    (data_qubits : List ℕ) (anc_global anc_local : ℕ)
    (h : totalCounts counts = 0) :
    analyze_results counts config = ⟨0, 0, 0, 0, 0⟩ ∧
    b3_analyze_results counts data_qubits anc_global anc_local = [0, 0, 0] := by
  constructor
  · rw [analyze_results, if_pos h]
  · rw [b3_analyze_results, if_pos h]

/-- Witness for C5 at the empty distribution. -/
theorem zero_total_zero_metrics_witness :
    analyze_results [] topologyA = ⟨0, 0, 0, 0, 0⟩ ∧
    b3_analyze_results [] [0, 1, 2, 3, 4, 5] 6 7 = [0, 0, 0] :=
  zero_total_zero_metrics [] topologyA [0, 1, 2, 3, 4, 5] 6 7 (by decide)

/-- C4: for a bitstring of width `w`, a group within range and an in-range
ancilla index, the parity-check decision computed on the reversed string at
the raw positions equals the decision computed on the un-reversed string at
the mirrored positions `w - 1 - i`. -/
theorem reversed_indexing_agrees (s : List Bool) (group : List ℕ) (anc w : ℕ)
    (hw : s.length = w) (hg : ∀ i ∈ group, i < w) (ha : anc < w) :
    groupMatches s.reverse group anc =
      groupMatches s (group.map (fun i => w - 1 - i)) (w - 1 - anc) := by
  subst hw
  unfold groupMatches ancillaBit
  rw [parityOf_reverse s group hg, getD_reverse s anc ha]

/-- Witness for C4 at a concrete width-9 string and the global group. -/
theorem reversed_indexing_agrees_witness :
    groupMatches
        ([true, true, true, false, false, false, true, false, false].reverse)
        [0, 1, 2, 3, 4, 5] 6 =
      groupMatches [true, true, true, false, false, false, true, false, false]
        ([0, 1, 2, 3, 4, 5].map (fun i => 9 - 1 - i)) (9 - 1 - 6) :=
  reversed_indexing_agrees _ [0, 1, 2, 3, 4, 5] 6 9 (by decide) (by decide)
    (by decide)

/-- C6: both builders emit exactly the claimed program — Hadamards on the
data qubits, then the group CNOTs in group order into the fixed ancillas,
then the full-width qubit-to-same-index measurements — and, whenever the
data-qubit indices lie in the data range 0..5, no CNOT of either program
targets a data qubit, so no operation couples two data qubits. -/
theorem circuit_program_shape (config : Config) (data_qubits : List ℕ)
    (hghz : ∀ q ∈ config.ghz_indices, q < 6)
    (hla : ∀ q ∈ config.local_a_indices, q < 6)
    (hlb : ∀ q ∈ config.local_b_indices, q < 6)
    (hdata : ∀ q ∈ data_qubits, q < 6) :
    build_circuit config =
      (config.ghz_indices.map Op.h) ++
      (config.ghz_indices.map (fun q => Op.cx q 6)) ++
      (config.local_a_indices.map (fun q => Op.cx q 7)) ++
      (config.local_b_indices.map (fun q => Op.cx q 8)) ++
      ((List.range 9).map (fun i => Op.measure i i)) ∧
    classical_control_circuit data_qubits 6 7 =
      (data_qubits.map Op.h) ++
      (data_qubits.map (fun q => Op.cx q 6)) ++
      ((data_qubits.take 3).map (fun q => Op.cx q 7)) ++
      ((List.range 8).map (fun i => Op.measure i i)) ∧
    (∀ c t, Op.cx c t ∈ build_circuit config →
      t ∉ config.ghz_indices ∧ t ∉ config.local_a_indices ∧
        t ∉ config.local_b_indices) ∧
    (∀ c t, Op.cx c t ∈ classical_control_circuit data_qubits 6 7 →
      t ∉ data_qubits) := by
  refine ⟨rfl, rfl, ?_, ?_⟩
  · intro c t hmem
    have ht : t = 6 ∨ t = 7 ∨ t = 8 := by
      simp only [build_circuit, List.mem_append, List.mem_map,
        List.mem_range] at hmem
      rcases hmem with ((((⟨a, _, hop⟩ | ⟨a, _, hop⟩) | ⟨a, _, hop⟩) |
        ⟨a, _, hop⟩) | ⟨a, _, hop⟩) <;> cases hop
      · exact Or.inl rfl
      · exact Or.inr (Or.inl rfl)
      · exact Or.inr (Or.inr rfl)
    refine ⟨fun hin => ?_, fun hin => ?_, fun hin => ?_⟩
    · have := hghz t hin; omega
    · have := hla t hin; omega
    · have := hlb t hin; omega
  · intro c t hmem
    have ht : t = 6 ∨ t = 7 := by
      simp only [classical_control_circuit, List.mem_append, List.mem_map,
        List.mem_range] at hmem
      rcases hmem with (((⟨a, _, hop⟩ | ⟨a, _, hop⟩) | ⟨a, _, hop⟩) |
        ⟨a, _, hop⟩) <;> cases hop
      · exact Or.inl rfl
      · exact Or.inr rfl
    intro hin
    have := hdata t hin
    omega

/-- Witness for C6 at topology A: the CNOT from qubit 0 into the global
ancilla 6 present in the program has a target outside every data group. -/
theorem circuit_program_shape_witness :
    6 ∉ topologyA.ghz_indices ∧ 6 ∉ topologyA.local_a_indices ∧
      6 ∉ topologyA.local_b_indices :=
  (circuit_program_shape topologyA [0, 1, 2, 3, 4, 5] (by decide) (by decide)
    (by decide) (by decide)).2.2.1 0 6 (by decide)

theorem collection_phase_spec (step : JobRec → CollectStep)
    (mkRow : JobRec → Counts → Option (List String)) (jobs : List JobRec) :
    (collection_phase step mkRow jobs).1 = jobs ∧
    (collection_phase step mkRow jobs).2 = jobs.filterMap (fun j =>
      match step j with
      | CollectStep.gotCounts c => mkRow j c
      | _ => none) := by
  induction jobs with
  | nil => exact ⟨rfl, rfl⟩
  | cons j rest ih =>
    cases hstep : step j with
    | waitFail =>
      refine ⟨?_, ?_⟩ <;>
        simp [collection_phase, hstep, List.filterMap_cons, ih.1, ih.2]
    | extractFail =>
      refine ⟨?_, ?_⟩ <;>
        simp [collection_phase, hstep, List.filterMap_cons, ih.1, ih.2]
    | gotCounts c =>
      cases hmk : mkRow j c with
      | none =>
        refine ⟨?_, ?_⟩ <;>
          simp [collection_phase, hstep, hmk, List.filterMap_cons, ih.1, ih.2]
      | some r =>
        refine ⟨?_, ?_⟩ <;>
          simp [collection_phase, hstep, hmk, List.filterMap_cons, ih.1, ih.2]

/-- C7: every ledger row produced by the dual-ancilla collection loop
carries the literal string "0.00" in the local-B column (index 5) and in
the asymmetry column (index 6), whatever the analyzed distributions and the
percent formatting of the computed columns. -/
theorem dual_ledger_literal_zeros (step : JobRec → CollectStep)
    (backendName : String) (fmt : ℚ → String) (data_qubits : List ℕ)
    (anc_global anc_local shots : ℕ) (jobs : List JobRec) :
    ∀ row ∈ (collection_phase step
        (b3_mkRow backendName fmt data_qubits anc_global anc_local shots)
        jobs).2,
      row.getD 5 "" = "0.00" ∧ row.getD 6 "" = "0.00" := by
  intro row hrow
  rw [(collection_phase_spec step _ jobs).2] at hrow
  rcases List.mem_filterMap.mp hrow with ⟨j, _, heq⟩
  cases hstep : step j with
  | waitFail => rw [hstep] at heq; exact Option.noConfusion heq
  | extractFail => rw [hstep] at heq; exact Option.noConfusion heq
  | gotCounts c =>
    rw [hstep] at heq
    simp only at heq
    unfold b3_mkRow at heq
    cases hu : unpack2 (b3_analyze_results c data_qubits anc_global anc_local) with
    | none => rw [hu] at heq; exact Option.noConfusion heq
    | some gla =>
      rw [hu] at heq
      have h2 : _ = row := Option.some.inj heq
      rw [← h2]
      exact ⟨rfl, rfl⟩

/-- Witness for C7: a one-job campaign whose job succeeds with a single
all-zero outcome produces a row whose columns 5 and 6 are "0.00". -/
theorem dual_ledger_literal_zeros_witness :
    (["ibm", "A", "j1", "", "", "0.00", "0.00", "8192"] : List String).getD 5 ""
        = "0.00" ∧
    (["ibm", "A", "j1", "", "", "0.00", "0.00", "8192"] : List String).getD 6 ""
        = "0.00" :=
  dual_ledger_literal_zeros
    (fun _ => CollectStep.gotCounts [(List.replicate 8 false, 1)]) "ibm"
    (fun _ => "") [0, 1, 2, 3, 4, 5] 6 7 8192 [⟨"A", 1, "j1"⟩]
    ["ibm", "A", "j1", "", "", "0.00", "0.00", "8192"] (by decide)

/-- C9: the collection loop visits the submitted job records exactly once
each, in submission order; a job failing at the blocking wait, the count
extraction, or the analysis contributes no ledger row while the loop
continues; and the rows are exactly one per successfully analyzed job, in
order. -/
theorem collection_failure_isolated (step : JobRec → CollectStep)
    (mkRow : JobRec → Counts → Option (List String)) (jobs : List JobRec) :
    (collection_phase step mkRow jobs).1 = jobs ∧
    (collection_phase step mkRow jobs).2 = jobs.filterMap (fun j =>
      match step j with
      | CollectStep.gotCounts c => mkRow j c
      | _ => none) :=
  collection_phase_spec step mkRow jobs

theorem submission_phase_spec (step : String → ℕ → SubmitStep)
    (pairs : List (String × ℕ))
    (hopt : ∀ p ∈ pairs, step p.1 p.2 ≠ SubmitStep.transpileFail) :
    (submission_phase step pairs).1 = pairs ∧
    (submission_phase step pairs).2.2 = false ∧
    (submission_phase step pairs).2.1 = pairs.filterMap (fun p =>
      match step p.1 p.2 with
      | SubmitStep.submitted jid => some (⟨p.1, p.2, jid⟩ : JobRec)
      | _ => none) := by
  induction pairs with
  | nil => exact ⟨rfl, rfl, rfl⟩
  | cons q rest ih =>
    have hq := hopt q (List.mem_cons_self q rest)
    have hrest : ∀ p ∈ rest, step p.1 p.2 ≠ SubmitStep.transpileFail :=
      fun p hp => hopt p (List.mem_cons_of_mem q hp)
    obtain ⟨ih1, ih2, ih3⟩ := ih hrest
    cases hstep : step q.1 q.2 with
    | transpileFail => exact absurd hstep hq
    | submitFail =>
      refine ⟨?_, ?_, ?_⟩ <;>
        simp [submission_phase, hstep, List.filterMap_cons, ih1, ih2, ih3]
    | submitted jid =>
      refine ⟨?_, ?_, ?_⟩ <;>
        simp [submission_phase, hstep, List.filterMap_cons, ih1, ih2, ih3]

/-- C8 (counterexample): in both scripts the transpile call sits before the
`try` block, so an exception while optimizing is not caught: with an oracle
whose transpile step fails on ("A", 1), the phase aborts and the subsequent
pair ("A", 2) is never attempted — the claim's "failure while
optimizing-and-submitting is caught" is false for the optimize step. -/
theorem transpile_failure_aborts_phase :
    (submission_phase stepTranspileFailA1 [("A", 1), ("A", 2)]).2.2 = true ∧
    ("A", 2) ∉ (submission_phase stepTranspileFailA1 [("A", 1), ("A", 2)]).1 := by
  decide

/-- C8 (amended): when no transpile (optimize) failure occurs, a failure of
the submit call for one (label, repetition) pair is caught, every pair is
still attempted, the phase never aborts, and no job record is produced for
the failed pair. -/
theorem submission_failure_isolated (step : String → ℕ → SubmitStep)
    (pairs : List (String × ℕ))
    (hopt : ∀ p ∈ pairs, step p.1 p.2 ≠ SubmitStep.transpileFail) :
    (submission_phase step pairs).1 = pairs ∧
    (submission_phase step pairs).2.2 = false ∧
    (∀ p ∈ pairs, step p.1 p.2 = SubmitStep.submitFail →
      ∀ r ∈ (submission_phase step pairs).2.1,
        ¬(r.run_label = p.1 ∧ r.rep = p.2)) := by
  obtain ⟨h1, h2, h3⟩ := submission_phase_spec step pairs hopt
  refine ⟨h1, h2, ?_⟩
  intro p hp hsub r hr hmatch
  rw [h3] at hr
  rcases List.mem_filterMap.mp hr with ⟨q, hq, heq⟩
  cases hstep : step q.1 q.2 with
  | transpileFail => exact hopt q hq hstep
  | submitFail => rw [hstep] at heq; exact Option.noConfusion heq
  | submitted jid =>
    rw [hstep] at heq
    have hrq : r = ⟨q.1, q.2, jid⟩ := (Option.some.inj heq).symm
    have e1 : q.1 = p.1 := by rw [hrq] at hmatch; exact hmatch.1
    have e2 : q.2 = p.2 := by rw [hrq] at hmatch; exact hmatch.2
    rw [e1, e2] at hstep
    rw [hsub] at hstep
    exact SubmitStep.noConfusion hstep

/-- Witness for C8 (amended) with a one-pair campaign whose submit fails. -/
theorem submission_failure_isolated_witness :
    (submission_phase (fun _ _ => SubmitStep.submitFail) [("A", 1)]).1 =
      [("A", 1)] ∧
    (submission_phase (fun _ _ => SubmitStep.submitFail) [("A", 1)]).2.2 =
      false ∧
    (∀ p ∈ [(("A" : String), (1 : ℕ))],
      (fun (_ : String) (_ : ℕ) => SubmitStep.submitFail) p.1 p.2 =
          SubmitStep.submitFail →
      ∀ r ∈ (submission_phase (fun _ _ => SubmitStep.submitFail)
          [("A", 1)]).2.1,
        ¬(r.run_label = p.1 ∧ r.rep = p.2)) :=
  submission_failure_isolated (fun _ _ => SubmitStep.submitFail) [("A", 1)]
    (by decide)

/-- C10: for a topology whose local-A list is a duplicate-free subset of a
duplicate-free global list, `get_ordered_data` returns a permutation of the
global list whose first three entries are the local-A list in order; hence
the dual-ancilla circuit's CNOTs into the global ancilla 6 range over
exactly the global group and those into the local ancilla 7 over exactly
the local-A group. -/
theorem ordered_data_wiring (config : Config)
    (hghz : config.ghz_indices.Nodup) (hla : config.local_a_indices.Nodup)
    (hsub : ∀ x ∈ config.local_a_indices, x ∈ config.ghz_indices)
    (hlen : config.local_a_indices.length = 3) :
    List.Perm (get_ordered_data config) config.ghz_indices ∧
    (get_ordered_data config).take 3 = config.local_a_indices ∧
    (∀ q, Op.cx q 6 ∈ classical_control_circuit (get_ordered_data config) 6 7 ↔
      q ∈ config.ghz_indices) ∧
    (∀ q, Op.cx q 7 ∈ classical_control_circuit (get_ordered_data config) 6 7 ↔
      q ∈ config.local_a_indices) := by
  have hmem : ∀ x, x ∈ get_ordered_data config ↔ x ∈ config.ghz_indices := by
    intro x
    simp only [get_ordered_data, List.mem_append, List.mem_filter,
      decide_eq_true_eq]
    constructor
    · rintro (hx | ⟨hx, _⟩)
      · exact hsub x hx
      · exact hx
    · intro hx
      by_cases hxla : x ∈ config.local_a_indices
      · exact Or.inl hxla
      · exact Or.inr ⟨hx, hxla⟩
  have hnd : (get_ordered_data config).Nodup := by
    rw [get_ordered_data]
    refine List.Nodup.append hla (hghz.filter _) ?_
    intro x hx1 hx2
    rcases List.mem_filter.mp hx2 with ⟨_, hdec⟩
    rw [decide_eq_true_eq] at hdec
    exact hdec hx1
  have hperm : List.Perm (get_ordered_data config) config.ghz_indices :=
    (List.perm_ext_iff_of_nodup hnd hghz).mpr hmem
  have htake : (get_ordered_data config).take 3 = config.local_a_indices := by
    rw [get_ordered_data, ← hlen,
      List.take_append_of_le_length (le_refl _), List.take_length]
  refine ⟨hperm, htake, ?_, ?_⟩
  · intro q
    simp only [classical_control_circuit, List.mem_append, List.mem_map,
      List.mem_range]
    constructor
    · rintro (((⟨a, ha, hop⟩ | ⟨a, ha, hop⟩) | ⟨a, ha, hop⟩) | ⟨a, ha, hop⟩)
      · exact Op.noConfusion hop
      · injection hop with h1 h2
        rw [← h1]
        exact (hmem a).mp ha
      · injection hop with h1 h2
        omega
      · exact Op.noConfusion hop
    · intro hq
      exact Or.inl (Or.inl (Or.inr ⟨q, (hmem q).mpr hq, rfl⟩))
  · intro q
    simp only [classical_control_circuit, List.mem_append, List.mem_map,
      List.mem_range]
    constructor
    · rintro (((⟨a, ha, hop⟩ | ⟨a, ha, hop⟩) | ⟨a, ha, hop⟩) | ⟨a, ha, hop⟩)
      · exact Op.noConfusion hop
      · injection hop with h1 h2
        omega
      · injection hop with h1 h2
        rw [htake] at ha
        rw [← h1]
        exact ha
      · exact Op.noConfusion hop
    · intro hq
      refine Or.inl (Or.inr ⟨q, ?_, rfl⟩)
      rw [htake]
      exact hq

/-- Witness for C10 at topology B: the first three entries of the ordered
data list are the local-A indices. -/
theorem ordered_data_wiring_witness :
    (get_ordered_data topologyB).take 3 = topologyB.local_a_indices :=
  (ordered_data_wiring topologyB (by decide) (by decide) (by decide)
    (by decide)).2.1

end GhzCampaign
